import Mathlib

/-!
Verification of the contrastive-learning repository (Simclr.py, Networks.py).

The Python source is shallowly embedded below:
* the pairing-index construction of `SimCLR.contrastive_loss`
  (Simclr.py lines 94-102) over `List String`;
* the per-view-pair similarity / loss arithmetic (lines 104-150) over `ℝ`;
* the shape semantics of `BaselineConvNet.forward` (Networks.py);
* the scheduler stepping of the epoch loop of `SimCLR.train` (lines 175-227).
-/

namespace ECG

/-! ## Pairing index builder (Simclr.py lines 94-102)

With `pid1, pid2 = np.meshgrid(pids, pids)` the first output varies along
columns, so `pid_matrix = pid1 + '-' + pid2` holds `pids[j] ++ "-" ++ pids[i]`
at cell `(i, j)`.  `pids_of_interest = np.unique(pids + '-' + pids)` is the
collection of self-concatenated keys; `np.unique` only sorts and
deduplicates, which does not change membership, so the plain list of keys is
kept and `np.isin` is membership in it. -/

/-- Cell `(i, j)` of `pid_matrix` (Simclr.py lines 96-97):
`pids[j] + '-' + pids[i]`. -/
def pid_matrix_entry (pids : List String) (i j : Nat) : String :=
  pids.getD j "" ++ "-" ++ pids.getD i ""

/-- The keys `pids + '-' + pids` whose uniquing gives `pids_of_interest`
(Simclr.py line 98); only membership in it is consumed. -/
def pids_of_interest (pids : List String) : List String :=
  pids.map (fun p => p ++ "-" ++ p)

/-- Cell `(i, j)` of `bool_matrix_of_interest = np.isin(pid_matrix,
pids_of_interest)` (Simclr.py line 99). -/
def bool_matrix_of_interest (pids : List String) (i j : Nat) : Bool :=
  decide (pid_matrix_entry pids i j ∈ pids_of_interest pids)

/-- Coordinates `rows1, cols1 = np.where(np.triu(bool_matrix_of_interest, k=1))`
(Simclr.py line 101): cells of interest strictly above the diagonal, in the
row-major order `np.where` produces. -/
def triu_pairs (pids : List String) : List (Nat × Nat) :=
  (List.range pids.length).flatMap (fun i =>
    ((List.range pids.length).filter
        (fun j => decide (i < j) && bool_matrix_of_interest pids i j)).map
      (fun j => (i, j)))

/-- Coordinates `rows2, cols2 = np.where(np.tril(bool_matrix_of_interest, k=-1))`
(Simclr.py line 102): cells of interest strictly below the diagonal, in
row-major order. -/
def tril_pairs (pids : List String) : List (Nat × Nat) :=
  (List.range pids.length).flatMap (fun i =>
    ((List.range pids.length).filter
        (fun j => decide (j < i) && bool_matrix_of_interest pids i j)).map
      (fun j => (i, j)))

/-! ## View combinations (Simclr.py lines 104-105)

`nviews = set(range(features.shape[1])); view_combinations =
combinations(nviews, 2)`: all pairs `(l1, l2)` with `l1 < l2 < nviews`, in
lexicographic order. -/

/-- All unordered view pairs `(l1, l2)`, `l1 < l2`, in the lexicographic
order `itertools.combinations` yields on `0, ..., nviews-1`. -/
def view_combinations (nviews : Nat) : List (Nat × Nat) :=
  (List.range nviews).flatMap (fun l1 =>
    ((List.range nviews).filter (fun l2 => decide (l1 < l2))).map
      (fun l2 => (l1, l2)))

/-! ## Similarity and loss arithmetic (Simclr.py lines 110-150)

Embedding of the per-view-pair tensor arithmetic over `ℝ`.  The features
tensor `features[i, l, k]` is a function `f : ℕ → ℕ → ℕ → ℝ` together with
the batch size `n`, view count `nviews` and embedding dimension `d`.
`torch.mean` of a 1-D tensor is its sum divided by its length. -/

noncomputable section

/-- Mean of a list of reals, as `torch.mean` of a 1-D tensor (sum divided
by length; the empty case is a data-contract violation in the source). -/
def list_mean (xs : List ℝ) : ℝ := xs.sum / xs.length

/-- Entry `(i, j)` of `sim_matrix = torch.mm(view1_array, view2_array.t())`
(Simclr.py line 117): the dot product of the embedding of sample `i` in
view `l1` with that of sample `j` in view `l2`. -/
def sim_matrix (f : Nat → Nat → Nat → ℝ) (d l1 l2 i j : Nat) : ℝ :=
  ∑ k ∈ Finset.range d, f i l1 k * f j l2 k

/-- Row `i` of `norm1_vector = view1_array.norm(dim=1, keepdim=True)`
(Simclr.py lines 114-115): the Euclidean norm of the embedding of sample
`i` in view `l`. -/
def norm_vector (f : Nat → Nat → Nat → ℝ) (d l i : Nat) : ℝ :=
  Real.sqrt (∑ k ∈ Finset.range d, (f i l k) ^ 2)

/-- The local binding `temperature = 0.1` (Simclr.py line 120), which
shadows the configured `self.temperature` inside `contrastive_loss`. -/
def temperature : ℝ := 0.1

/-- Entry `(i, j)` of `argument = sim_matrix / (norm_matrix * temperature)`
(Simclr.py line 121), with `norm_matrix[i, j] = norm1_vector[i] *
norm2_vector[j]` (line 118). -/
def argument (f : Nat → Nat → Nat → ℝ) (d l1 l2 i j : Nat) : ℝ :=
  sim_matrix f d l1 l2 i j /
    (norm_vector f d l1 i * norm_vector f d l2 j * temperature)

/-- Entry `(i, j)` of `sim_matrix_exp = torch.exp(argument)` (line 122). -/
def sim_matrix_exp (f : Nat → Nat → Nat → ℝ) (d l1 l2 i j : Nat) : ℝ :=
  Real.exp (argument f d l1 l2 i j)

/-- Entry `i` of `triu_sum = torch.sum(sim_matrix_exp, dim=1)` (line 128):
the sum of row `i`. -/
def triu_sum (f : Nat → Nat → Nat → ℝ) (d n l1 l2 i : Nat) : ℝ :=
  ∑ j ∈ Finset.range n, sim_matrix_exp f d l1 l2 i j

/-- Entry `j` of `tril_sum = torch.sum(sim_matrix_exp, dim=0)` (line 129):
the sum of column `j`. -/
def tril_sum (f : Nat → Nat → Nat → ℝ) (d n l1 l2 j : Nat) : ℝ :=
  ∑ i ∈ Finset.range n, sim_matrix_exp f d l1 l2 i j

/-- `loss_diag1 = -torch.mean(torch.log(diag_elements / triu_sum))`
(line 131). -/
def loss_diag1 (f : Nat → Nat → Nat → ℝ) (d n l1 l2 : Nat) : ℝ :=
  -list_mean ((List.range n).map (fun i =>
    Real.log (sim_matrix_exp f d l1 l2 i i / triu_sum f d n l1 l2 i)))

/-- `loss_diag2 = -torch.mean(torch.log(diag_elements / tril_sum))`
(line 132). -/
def loss_diag2 (f : Nat → Nat → Nat → ℝ) (d n l1 l2 : Nat) : ℝ :=
  -list_mean ((List.range n).map (fun i =>
    Real.log (sim_matrix_exp f d l1 l2 i i / tril_sum f d n l1 l2 i)))

/-- `loss_triu = -torch.mean(torch.log(triu_elements / triu_sum[rows1]))`
(line 134), with `triu_elements = sim_matrix_exp[rows1, cols1]` (line 124). -/
def loss_triu (f : Nat → Nat → Nat → ℝ) (d n : Nat) (pids : List String)
    (l1 l2 : Nat) : ℝ :=
  -list_mean ((triu_pairs pids).map (fun rc =>
    Real.log (sim_matrix_exp f d l1 l2 rc.1 rc.2 / triu_sum f d n l1 l2 rc.1)))

/-- `loss_tril = -torch.mean(torch.log(tril_elements / tril_sum[cols2]))`
(line 135), with `tril_elements = sim_matrix_exp[rows2, cols2]` (line 125). -/
def loss_tril (f : Nat → Nat → Nat → ℝ) (d n : Nat) (pids : List String)
    (l1 l2 : Nat) : ℝ :=
  -list_mean ((tril_pairs pids).map (fun rc =>
    Real.log (sim_matrix_exp f d l1 l2 rc.1 rc.2 / tril_sum f d n l1 l2 rc.2)))

/-- Amount added to `loss` in one iteration of the view-combination loop
(Simclr.py lines 137-145): `loss_diag1 + loss_diag2`, plus `loss_triu` when
`len(rows1) > 0` and `loss_tril` when `len(rows2) > 0`. -/
def pair_contribution (f : Nat → Nat → Nat → ℝ) (d n : Nat)
    (pids : List String) (lv : Nat × Nat) : ℝ :=
  loss_diag1 f d n lv.1 lv.2 + loss_diag2 f d n lv.1 lv.2
    + (if triu_pairs pids ≠ [] then loss_triu f d n pids lv.1 lv.2 else 0)
    + (if tril_pairs pids ≠ [] then loss_tril f d n pids lv.1 lv.2 else 0)

/-- Value of `loss_terms` at the end of one loop iteration (lines 138-145):
`2`, plus one for a nonempty upper index list and one for a nonempty lower
index list.  It does not depend on the view pair. -/
def term_count (pids : List String) : Nat :=
  2 + (if triu_pairs pids ≠ [] then 1 else 0)
    + (if tril_pairs pids ≠ [] then 1 else 0)

/-- State carried across iterations of the view-combination loop.
`loss_terms` and `sim_exp` are `none` until the first iteration assigns
them (reading them with no iteration executed is a Python `NameError`). -/
structure LossState where
  loss : ℝ
  loss_terms : Option Nat
  ncombinations : Nat
  sim_exp : Option (Nat → Nat → ℝ)

/-- One iteration of `for lead1, lead2 in view_combinations` (Simclr.py
lines 110-146). -/
def loop_step (f : Nat → Nat → Nat → ℝ) (d n : Nat) (pids : List String)
    (s : LossState) (lv : Nat × Nat) : LossState :=
  { loss := s.loss + pair_contribution f d n pids lv
    loss_terms := some (term_count pids)
    ncombinations := s.ncombinations + 1
    sim_exp := some (fun i j => sim_matrix_exp f d lv.1 lv.2 i j) }

/-- The loop of Simclr.py lines 110-146, started from
`loss = 0; ncombinations = 0` (lines 107-108). -/
def contrastive_loss_state (f : Nat → Nat → Nat → ℝ) (d n : Nat)
    (pids : List String) (nviews : Nat) : LossState :=
  (view_combinations nviews).foldl (loop_step f d n pids)
    { loss := 0, loss_terms := none, ncombinations := 0, sim_exp := none }

/-- `torch.ones_like(sim_matrix_exp)` (line 150): a matrix of ones of the
same square shape. -/
def ones_like (_M : Nat → Nat → ℝ) : Nat → Nat → ℝ := fun _ _ => 1

/-- `torch.diag` of an `n × n` matrix: its diagonal as a 1-D tensor of
length `n`. -/
def diag_of (n : Nat) (M : Nat → Nat → ℝ) : List ℝ :=
  (List.range n).map (fun i => M i i)

/-- `SimCLR.contrastive_loss` (Simclr.py lines 94-150): the final
`loss = loss/(loss_terms*ncombinations)` (line 148) and the returned triple
`loss, sim_matrix_exp, torch.diag(torch.ones_like(sim_matrix_exp))`
(line 150).  `selfTemperature` is the configured `self.temperature`, in
scope but shadowed by the local `temperature = 0.1`.  The result is `none`
when fewer than two views exist: then the loop body never runs and reading
`loss_terms` or `sim_matrix_exp` raises a `NameError`. -/
def contrastive_loss (selfTemperature : ℝ) (f : Nat → Nat → Nat → ℝ)
    (d n nviews : Nat) (pids : List String) :
    Option (ℝ × (Nat → Nat → ℝ) × List ℝ) :=
  let s := contrastive_loss_state f d n pids nviews
  match s.loss_terms, s.sim_exp with
  | some terms, some m =>
      some (s.loss / ((terms : ℝ) * (s.ncombinations : ℝ)), m,
        diag_of n (ones_like m))
  | _, _ => none

/-- The scalar component of the value returned by `contrastive_loss`. -/
def contrastive_loss_value (selfTemperature : ℝ) (f : Nat → Nat → Nat → ℝ)
    (d n nviews : Nat) (pids : List String) : Option ℝ :=
  (contrastive_loss selfTemperature f d n nviews pids).map (fun r => r.1)

/-- Sum of the loop contributions over all view pairs: the value of the
accumulator `loss` after the loop when started from `0`. -/
def accumulated_loss (f : Nat → Nat → Nat → ℝ) (d n : Nat)
    (pids : List String) (nviews : Nat) : ℝ :=
  ((view_combinations nviews).map (pair_contribution f d n pids)).sum

end

/-! ## Shape semantics of BaselineConvNet.forward (Networks.py)

Claims about the encoder concern only tensor shapes, so the forward pass is
embedded at the shape level: each `nn.Conv1d(kernel_size=k, stride=s)`
(no padding, no dilation) maps a length `L ≥ k` to `(L - k) / s + 1` and
fails for `L < k`; activation and batch normalization preserve shape;
`AdaptiveAvgPool1d(1)` pools to length 1; flattening after conv6 gives 256
features; the non-classification `finalLayer` is `Linear(256, 256)` then
`Linear(256, 128)`, mapping the last dimension to 128. -/

/-- Output length of a 1-D convolution with the given kernel size and
stride (defaults `padding=0`, `dilation=1`), `none` when the input is too
short. -/
def conv1d_out_len (kernel_size stride lin : Nat) : Option Nat :=
  if kernel_size ≤ lin then some ((lin - kernel_size) / stride + 1) else none

/-- Sequence length through the six convolution blocks conv1..conv6 of
`BaselineConvNet` (kernel/stride 7/4, 7/3, 5/2, 3/1, 3/1, 3/1). -/
def conv_pipeline_len (lin : Nat) : Option Nat :=
  (conv1d_out_len 7 4 lin).bind (fun a =>
    (conv1d_out_len 7 3 a).bind (fun b =>
      (conv1d_out_len 5 2 b).bind (fun c =>
        (conv1d_out_len 3 1 c).bind (fun e =>
          (conv1d_out_len 3 1 e).bind (fun g =>
            conv1d_out_len 3 1 g)))))

/-- Shape of `BaselineConvNet.forward` (Networks.py lines 58-102).
Classification mode runs the pipeline on `(batch, 1, seq)` and projects to
one logit.  Multi-view mode loops the pipeline over the view axis into
`(batch, nviews, 256)`, optionally averages views to `(batch, 1, 256)`,
then projects the last dimension to 128; with zero views the loop body
(and hence the convolution) never executes. -/
def forward_shape (classification avg_embeddings : Bool)
    (batch nviews seq : Nat) : Option (List Nat) :=
  if classification then
    (conv_pipeline_len seq).map (fun _ => [batch, 1])
  else if nviews = 0 then
    some [batch, if avg_embeddings then 1 else 0, 128]
  else
    (conv_pipeline_len seq).map (fun _ =>
      [batch, if avg_embeddings then 1 else nviews, 128])

/-! ## Scheduler stepping in SimCLR.train (Simclr.py lines 175-227)

The scheduler is modelled by the number of `scheduler.step()` calls made.
The batch loop (lines 177-221) reads the scheduler (`get_last_lr`) but
never advances it; after the batch loop, `if epoch_counter >=
self.warmup_epochs: self.scheduler.step()` (lines 225-226). -/

/-- Effect of one iteration of the inner batch loop on the scheduler step
count: the loop body contains no `scheduler.step()` call. -/
def batch_iteration (sched_steps : Nat) : Nat := sched_steps

/-- Effect of one epoch (Simclr.py lines 176-227) on the scheduler step
count: `n_batches` batch iterations, then one `scheduler.step()` whenever
`epoch_counter >= warmup_epochs`. -/
def epoch_body (warmup_epochs epoch_counter n_batches sched_steps : Nat) :
    Nat :=
  let after_batches := batch_iteration^[n_batches] sched_steps
  if warmup_epochs ≤ epoch_counter then after_batches + 1 else after_batches

/-- The epoch counters `range(self.curr_epochs+1, self.epochs)` of
Simclr.py line 175. -/
def train_epochs (curr_epochs epochs : Nat) : List Nat :=
  List.range' (curr_epochs + 1) (epochs - (curr_epochs + 1))

/-- Scheduler step count after `SimCLR.train` runs all epochs, given the
number of batches each epoch processes. -/
def train_sched_steps (curr_epochs epochs warmup_epochs : Nat)
    (batches : Nat → Nat) (sched_steps : Nat) : Nat :=
  (train_epochs curr_epochs epochs).foldl
    (fun s e => epoch_body warmup_epochs e (batches e) s) sched_steps

/-! ## Helper lemmas about the pairing index -/

/-- Membership characterization of the upper-triangular index list. -/
theorem mem_triu_pairs {pids : List String} {i j : Nat} :
    (i, j) ∈ triu_pairs pids ↔
      i < pids.length ∧ j < pids.length ∧ i < j
        ∧ bool_matrix_of_interest pids i j = true := by
  simp only [triu_pairs, List.mem_flatMap, List.mem_map, List.mem_filter,
    List.mem_range, Bool.and_eq_true, decide_eq_true_eq, Prod.mk.injEq]
  constructor
  · rintro ⟨a, ha, b, ⟨hb, hab, hbm⟩, rfl, rfl⟩
    exact ⟨ha, hb, hab, hbm⟩
  · rintro ⟨hi, hj, hij, hbm⟩
    exact ⟨i, hi, j, ⟨hj, hij, hbm⟩, rfl, rfl⟩

/-- Membership characterization of the lower-triangular index list. -/
theorem mem_tril_pairs {pids : List String} {i j : Nat} :
    (i, j) ∈ tril_pairs pids ↔
      i < pids.length ∧ j < pids.length ∧ j < i
        ∧ bool_matrix_of_interest pids i j = true := by
  simp only [tril_pairs, List.mem_flatMap, List.mem_map, List.mem_filter,
    List.mem_range, Bool.and_eq_true, decide_eq_true_eq, Prod.mk.injEq]
  constructor
  · rintro ⟨a, ha, b, ⟨hb, hab, hbm⟩, rfl, rfl⟩
    exact ⟨ha, hb, hab, hbm⟩
  · rintro ⟨hi, hj, hij, hbm⟩
    exact ⟨i, hi, j, ⟨hj, hij, hbm⟩, rfl, rfl⟩

/-- Splitting a list at a separator occurring in neither prefix is
unambiguous. -/
theorem sep_split_inj {sep : Char} :
    ∀ a c : List Char, sep ∉ a → sep ∉ c → ∀ b e : List Char,
      a ++ sep :: b = c ++ sep :: e → a = c ∧ b = e := by
  intro a
  induction a with
  | nil =>
    intro c _ hc b e h
    cases c with
    | nil => simpa using h
    | cons y ys =>
      exfalso
      rw [List.nil_append, List.cons_append] at h
      have h1 : sep = y := (List.cons.injEq _ _ _ _ ▸ h).1
      exact hc (h1 ▸ List.mem_cons_self y ys)
  | cons x xs ih =>
    intro c hx hc b e h
    cases c with
    | nil =>
      exfalso
      rw [List.nil_append, List.cons_append] at h
      have h1 : x = sep := (List.cons.injEq _ _ _ _ ▸ h).1
      exact hx (h1 ▸ List.mem_cons_self x xs)
    | cons y ys =>
      rw [List.cons_append, List.cons_append] at h
      have h1 := (List.cons.injEq _ _ _ _ ▸ h).1
      have h2 := (List.cons.injEq _ _ _ _ ▸ h).2
      have hxs : sep ∉ xs := fun hm => hx (List.mem_cons_of_mem _ hm)
      have hys : sep ∉ ys := fun hm => hc (List.mem_cons_of_mem _ hm)
      obtain ⟨ha, hb⟩ := ih ys hxs hys b e h2
      exact ⟨by rw [h1, ha], hb⟩

/-- Character data of a derived key `a ++ "-" ++ b`. -/
theorem key_data (a b : String) :
    (a ++ "-" ++ b).data = a.data ++ '-' :: b.data := by
  have hdash : ("-" : String).data = ['-'] := rfl
  rw [String.data_append, String.data_append, hdash, List.append_assoc,
    List.singleton_append]

/-- Two separator-free strings joined by `'-'` match a self-concatenated
separator-free key exactly when both equal it. -/
theorem key_eq_iff {a b p : String} (ha : '-' ∉ a.data) (hp : '-' ∉ p.data) :
    a ++ "-" ++ b = p ++ "-" ++ p ↔ a = p ∧ b = p := by
  constructor
  · intro h
    have hd := congrArg String.data h
    rw [key_data, key_data] at hd
    obtain ⟨h1, h2⟩ := sep_split_inj a.data p.data ha hp b.data p.data hd
    exact ⟨String.ext h1, String.ext h2⟩
  · rintro ⟨rfl, rfl⟩
    rfl

/-- When no identity contains the separator, a cell is of interest exactly
when its row and column identities are equal. -/
theorem bool_matrix_iff_eq {pids : List String}
    (hsep : ∀ p ∈ pids, ('-' : Char) ∉ p.data) {i j : Nat}
    (hi : i < pids.length) (hj : j < pids.length) :
    bool_matrix_of_interest pids i j = true ↔
      pids.getD i "" = pids.getD j "" := by
  have hmemi : pids.getD i "" ∈ pids := by
    rw [List.getD_eq_getElem _ _ hi]; exact List.getElem_mem hi
  have hmemj : pids.getD j "" ∈ pids := by
    rw [List.getD_eq_getElem _ _ hj]; exact List.getElem_mem hj
  simp only [bool_matrix_of_interest, decide_eq_true_eq, pids_of_interest,
    List.mem_map, pid_matrix_entry]
  constructor
  · rintro ⟨p, hp, hkey⟩
    obtain ⟨h1, h2⟩ := (key_eq_iff (hsep _ hmemj) (hsep _ hp)).1 hkey.symm
    rw [h1, h2]
  · intro h
    exact ⟨pids.getD j "", hmemj, by rw [h]⟩

/-- Distinct identities occupy distinct positions. -/
theorem nodup_getD_inj {pids : List String} (h : pids.Nodup) {i j : Nat}
    (hi : i < pids.length) (hj : j < pids.length)
    (he : pids.getD i "" = pids.getD j "") : i = j := by
  rw [List.getD_eq_getElem _ _ hi, List.getD_eq_getElem _ _ hj] at he
  exact (h.getElem_inj_iff).1 he

/-! ## Helper lemmas about the loss loop -/

/-- The loop accumulates the per-pair contributions into `loss` and counts
one combination per iteration. -/
theorem foldl_loop_accum (f : Nat → Nat → Nat → ℝ) (d n : Nat)
    (pids : List String) :
    ∀ (l : List (Nat × Nat)) (s : LossState),
      (l.foldl (loop_step f d n pids) s).loss
          = s.loss + (l.map (pair_contribution f d n pids)).sum
        ∧ (l.foldl (loop_step f d n pids) s).ncombinations
          = s.ncombinations + l.length := by
  intro l
  induction l with
  | nil => intro s; simp
  | cons a t ih =>
    intro s
    obtain ⟨h1, h2⟩ := ih (loop_step f d n pids s a)
    refine ⟨?_, ?_⟩
    · rw [List.foldl_cons, h1]
      simp only [loop_step, List.map_cons, List.sum_cons]
      ring
    · rw [List.foldl_cons, h2]
      simp only [loop_step, List.length_cons]
      omega

/-- After the loop runs its final iteration on the pair `a`, `loss_terms`
holds the term count and `sim_exp` holds that pair's exponentiated
similarity matrix. -/
theorem foldl_loop_concat (f : Nat → Nat → Nat → ℝ) (d n : Nat)
    (pids : List String) (xs : List (Nat × Nat)) (a : Nat × Nat)
    (s : LossState) :
    ((xs ++ [a]).foldl (loop_step f d n pids) s).loss_terms
        = some (term_count pids)
      ∧ ((xs ++ [a]).foldl (loop_step f d n pids) s).sim_exp
        = some (fun i j => sim_matrix_exp f d a.1 a.2 i j) := by
  rw [List.foldl_append]
  exact ⟨rfl, rfl⟩

/-- Views strictly above `m` in `range (m+2)`: exactly `m+1`. -/
theorem filter_range_gt (m : Nat) :
    (List.range (m + 2)).filter (fun j => decide (m < j)) = [m + 1] := by
  have h1 : (List.range (m + 1)).filter (fun j => decide (m < j)) = [] :=
    List.filter_eq_nil_iff.mpr (by
      intro a ha
      simp only [List.mem_range] at ha
      simp only [decide_eq_true_eq]
      omega)
  rw [show m + 2 = (m + 1) + 1 from rfl, List.range_succ, List.filter_append,
    h1]
  simp

/-- No view lies strictly above `m+1` in `range (m+2)`. -/
theorem filter_range_top (m : Nat) :
    (List.range (m + 2)).filter (fun j => decide (m + 1 < j)) = [] :=
  List.filter_eq_nil_iff.mpr (by
    intro a ha
    simp only [List.mem_range] at ha
    simp only [decide_eq_true_eq]
    omega)

/-- With at least two views the combination list ends in the pair of the
two highest view indices. -/
theorem view_combinations_concat (m : Nat) :
    ∃ xs, view_combinations (m + 2) = xs ++ [(m, m + 1)] := by
  unfold view_combinations
  generalize hg :
    (fun l1 => ((List.range (m + 2)).filter
        (fun l2 => decide (l1 < l2))).map (fun l2 => (l1, l2))) = g
  have hgm : g m = [(m, m + 1)] := by
    rw [← hg]
    show ((List.range (m + 2)).filter (fun l2 => decide (m < l2))).map
        (fun l2 => (m, l2)) = [(m, m + 1)]
    rw [filter_range_gt]
    rfl
  have hgm1 : g (m + 1) = [] := by
    rw [← hg]
    show ((List.range (m + 2)).filter
        (fun l2 => decide (m + 1 < l2))).map (fun l2 => (m + 1, l2)) = []
    rw [filter_range_top]
    rfl
  refine ⟨(List.range m).flatMap g, ?_⟩
  rw [show m + 2 = (m + 1) + 1 from rfl, List.range_succ,
    List.flatMap_append, List.range_succ, List.flatMap_append]
  simp [hgm, hgm1]

/-- The diagonal of an all-ones `n × n` matrix is a vector of `n` ones. -/
theorem diag_of_ones_like (n : Nat) (M : Nat → Nat → ℝ) :
    diag_of n (ones_like M) = List.replicate n 1 := by
  induction n with
  | zero => rfl
  | succ k ih =>
    rw [diag_of, List.range_succ, List.map_append, ← diag_of, ih,
      List.replicate_succ']
    rfl

/-- Full characterization of `contrastive_loss` for at least two views:
the returned scalar is the accumulated loss divided by the last
iteration's term count times the combination count, the returned matrix is
the exponentiated similarity matrix of the last view pair, and the third
component is a vector of `n` ones. -/
theorem contrastive_loss_spec (t : ℝ) (f : Nat → Nat → Nat → ℝ)
    (d n nviews : Nat) (pids : List String) (h : 2 ≤ nviews) :
    contrastive_loss t f d n nviews pids
      = some (accumulated_loss f d n pids nviews /
            ((term_count pids : ℝ) * ((view_combinations nviews).length : ℝ)),
          fun i j => sim_matrix_exp f d (nviews - 2) (nviews - 1) i j,
          List.replicate n 1)
    ∧ (contrastive_loss_state f d n pids nviews).loss_terms
        = some (term_count pids)
    ∧ (contrastive_loss_state f d n pids nviews).ncombinations
        = (view_combinations nviews).length
    ∧ (view_combinations nviews).getLast? = some (nviews - 2, nviews - 1) := by
  obtain ⟨m, rfl⟩ : ∃ m, nviews = m + 2 := ⟨nviews - 2, by omega⟩
  obtain ⟨xs, hxs⟩ := view_combinations_concat m
  have hm2 : m + 2 - 2 = m := by omega
  have hm1 : m + 2 - 1 = m + 1 := by omega
  have hterms : (contrastive_loss_state f d n pids (m + 2)).loss_terms
      = some (term_count pids) := by
    unfold contrastive_loss_state
    rw [hxs]
    exact (foldl_loop_concat f d n pids xs (m, m + 1) _).1
  have hsim : (contrastive_loss_state f d n pids (m + 2)).sim_exp
      = some (fun i j => sim_matrix_exp f d m (m + 1) i j) := by
    unfold contrastive_loss_state
    rw [hxs]
    exact (foldl_loop_concat f d n pids xs (m, m + 1) _).2
  have haccum := foldl_loop_accum f d n pids (view_combinations (m + 2))
    { loss := 0, loss_terms := none, ncombinations := 0, sim_exp := none }
  have hloss : (contrastive_loss_state f d n pids (m + 2)).loss
      = accumulated_loss f d n pids (m + 2) := by
    unfold contrastive_loss_state accumulated_loss
    rw [haccum.1]
    ring
  have hncomb : (contrastive_loss_state f d n pids (m + 2)).ncombinations
      = (view_combinations (m + 2)).length := by
    unfold contrastive_loss_state
    rw [haccum.2]
    simp
  have hlast : (view_combinations (m + 2)).getLast? = some (m, m + 1) := by
    rw [hxs, List.getLast?_concat]
  refine ⟨?_, hterms, hncomb, by rw [hm2, hm1]; exact hlast⟩
  unfold contrastive_loss
  rw [hm2, hm1]
  simp only [hterms, hsim, hloss, hncomb, diag_of_ones_like]

/-! ## Claim theorems -/

/-- C1, counterexample: with identities `["a", "b-a-b", "a-b"]`, which are
pairwise distinct, the off-diagonal cell `(1, 0)` is selected into the
lower index set although `patientIds[1] ≠ patientIds[0]` — the derived key
`"a" + "-" + "b-a-b"` collides with the self-key of `"a-b"`.  This refutes
the claim that for all identity strings, including ones containing the
`'-'` separator, a pair `(i, j)` with `i ≠ j` is selected iff
`patientIds[i] == patientIds[j]`. -/
theorem C1_counterexample :
    ((1, 0) ∈ triu_pairs ["a", "b-a-b", "a-b"]
      ∨ (1, 0) ∈ tril_pairs ["a", "b-a-b", "a-b"])
    ∧ ["a", "b-a-b", "a-b"].getD 1 "" ≠ ["a", "b-a-b", "a-b"].getD 0 ""
    ∧ (1 : Nat) ≠ 0 := by
  decide

/-- C1, amended: for every identity vector whose identities do not contain
the `'-'` separator, the index construction selects exactly the
off-diagonal cells with equal row and column identities: a pair `(i, j)`
with `i ≠ j` lies in the upper or lower index set iff
`patientIds[i] == patientIds[j]`. -/
theorem C1_pairing_selects_equal_ids (pids : List String)
    (hsep : ∀ p ∈ pids, ('-' : Char) ∉ p.data) (i j : Nat)
    (hi : i < pids.length) (hj : j < pids.length) (hij : i ≠ j) :
    ((i, j) ∈ triu_pairs pids ∨ (i, j) ∈ tril_pairs pids)
      ↔ pids.getD i "" = pids.getD j "" := by
  rw [mem_triu_pairs, mem_tril_pairs]
  have hb := bool_matrix_iff_eq hsep hi hj
  rcases Nat.lt_or_ge i j with hlt | hge
  · constructor
    · rintro (⟨-, -, -, hbm⟩ | ⟨-, -, hji, -⟩)
      · exact hb.1 hbm
      · omega
    · intro he
      exact Or.inl ⟨hi, hj, hlt, hb.2 he⟩
  · have hlt : j < i := by omega
    constructor
    · rintro (⟨-, -, hij2, -⟩ | ⟨-, -, -, hbm⟩)
      · omega
      · exact hb.1 hbm
    · intro he
      exact Or.inr ⟨hi, hj, hlt, hb.2 he⟩

/-- Witness for the amended C1 at the concrete separator-free identity
vector `["x", "y", "x"]` and the pair `(0, 2)`. -/
theorem C1_pairing_selects_equal_ids_witness :
    ((0, 2) ∈ triu_pairs ["x", "y", "x"]
        ∨ (0, 2) ∈ tril_pairs ["x", "y", "x"])
      ↔ ["x", "y", "x"].getD 0 "" = ["x", "y", "x"].getD 2 "" :=
  C1_pairing_selects_equal_ids ["x", "y", "x"] (by decide) 0 2 (by decide)
    (by decide) (by decide)

/-- C2: with at least two views, the returned scalar is the accumulated
sum of the contributing loss terms divided by the product of the last
iteration's `loss_terms` value and the number of view-pair combinations
evaluated. -/
theorem C2_loss_normalization (t : ℝ) (f : Nat → Nat → Nat → ℝ)
    (d n nviews : Nat) (pids : List String) (h : 2 ≤ nviews) :
    (contrastive_loss_state f d n pids nviews).loss_terms
        = some (term_count pids)
    ∧ contrastive_loss_value t f d n nviews pids
        = some (accumulated_loss f d n pids nviews /
            ((term_count pids : ℝ) *
              ((view_combinations nviews).length : ℝ))) := by
  obtain ⟨hmain, hterms, -, -⟩ := contrastive_loss_spec t f d n nviews pids h
  refine ⟨hterms, ?_⟩
  rw [contrastive_loss_value, hmain]
  rfl

/-- Witness for C2 at two views and a concrete zero features tensor. -/
theorem C2_loss_normalization_witness :
    (2 : Nat) ≤ 2
    ∧ ((contrastive_loss_state (fun _ _ _ => (0 : ℝ)) 1 1 ["a"] 2).loss_terms
          = some (term_count ["a"])
      ∧ contrastive_loss_value 0 (fun _ _ _ => (0 : ℝ)) 1 1 2 ["a"]
          = some (accumulated_loss (fun _ _ _ => (0 : ℝ)) 1 1 ["a"] 2 /
              ((term_count ["a"] : ℝ) *
                ((view_combinations 2).length : ℝ)))) :=
  ⟨by decide,
    C2_loss_normalization 0 (fun _ _ _ => (0 : ℝ)) 1 1 2 ["a"] (by decide)⟩

/-- C3, counterexample: the identity vector `["a", "b-a-b", "a-b"]` is
all-distinct, yet the lower-triangular index set is nonempty and the term
count used for normalization is 3, not 2 — the claim's premise "all
distinct, so both triangular index sets are empty" fails when identities
contain the `'-'` separator. -/
theorem C3_counterexample :
    (["a", "b-a-b", "a-b"] : List String).Nodup
    ∧ tril_pairs ["a", "b-a-b", "a-b"] ≠ []
    ∧ (contrastive_loss_state (fun _ _ _ => (1 : ℝ)) 1 3
        ["a", "b-a-b", "a-b"] 2).loss_terms = some 3 := by
  refine ⟨by decide, by decide, ?_⟩
  have hcombo : view_combinations 2 = [(0, 1)] := by decide
  have h1 : triu_pairs ["a", "b-a-b", "a-b"] = [] := by decide
  have h2 : tril_pairs ["a", "b-a-b", "a-b"] = [(1, 0)] := by decide
  have ht : term_count ["a", "b-a-b", "a-b"] = 3 := by
    simp [term_count, h1, h2]
  unfold contrastive_loss_state
  rw [hcombo, List.foldl_cons, List.foldl_nil]
  simp [loop_step, ht]

/-- C3, amended: for every batch whose identity vector is all-distinct and
separator-free (hence both triangular index sets are empty) and at least
two views, the loss computation is NaN-free: only the two diagonal terms
contribute per view pair, the normalization term count is 2, a scalar is
returned, and with nonzero embeddings every norm is positive and every
logarithm argument is positive. -/
theorem C3_degenerate_batch (t : ℝ) (f : Nat → Nat → Nat → ℝ)
    (d n nviews : Nat) (pids : List String) (hnv : 2 ≤ nviews)
    (hsep : ∀ p ∈ pids, ('-' : Char) ∉ p.data) (hdist : pids.Nodup)
    (hnz : ∀ i l, i < n → l < nviews → ∃ k, k < d ∧ f i l k ≠ 0) :
    triu_pairs pids = [] ∧ tril_pairs pids = []
    ∧ (contrastive_loss_state f d n pids nviews).loss_terms = some 2
    ∧ (∀ lv : Nat × Nat, pair_contribution f d n pids lv
        = loss_diag1 f d n lv.1 lv.2 + loss_diag2 f d n lv.1 lv.2)
    ∧ (∃ v, contrastive_loss_value t f d n nviews pids = some v)
    ∧ (∀ l i, i < n → l < nviews → 0 < norm_vector f d l i)
    ∧ (∀ l1 l2 i, i < n →
        0 < sim_matrix_exp f d l1 l2 i i / triu_sum f d n l1 l2 i
        ∧ 0 < sim_matrix_exp f d l1 l2 i i / tril_sum f d n l1 l2 i) := by
  have htriu : triu_pairs pids = [] := by
    rw [List.eq_nil_iff_forall_not_mem]
    rintro ⟨i, j⟩ hp
    obtain ⟨hi, hj, hij, hbm⟩ := mem_triu_pairs.1 hp
    have := nodup_getD_inj hdist hi hj ((bool_matrix_iff_eq hsep hi hj).1 hbm)
    omega
  have htril : tril_pairs pids = [] := by
    rw [List.eq_nil_iff_forall_not_mem]
    rintro ⟨i, j⟩ hp
    obtain ⟨hi, hj, hij, hbm⟩ := mem_tril_pairs.1 hp
    have := nodup_getD_inj hdist hi hj ((bool_matrix_iff_eq hsep hi hj).1 hbm)
    omega
  have hterm2 : term_count pids = 2 := by simp [term_count, htriu, htril]
  obtain ⟨hmain, hterms, -, -⟩ := contrastive_loss_spec t f d n nviews pids hnv
  refine ⟨htriu, htril, by rw [hterms, hterm2], ?_, ?_, ?_, ?_⟩
  · intro lv
    simp [pair_contribution, htriu, htril]
  · exact ⟨_, by rw [contrastive_loss_value, hmain]; rfl⟩
  · intro l i hi hl
    obtain ⟨k, hk, hfk⟩ := hnz i l hi hl
    apply Real.sqrt_pos.mpr
    apply Finset.sum_pos'
    · intro x _
      exact sq_nonneg _
    · exact ⟨k, Finset.mem_range.mpr hk,
        lt_of_le_of_ne (sq_nonneg _) (Ne.symm (pow_ne_zero 2 hfk))⟩
  · intro l1 l2 i hi
    have hrow : 0 < triu_sum f d n l1 l2 i := by
      unfold triu_sum sim_matrix_exp
      exact Finset.sum_pos (fun j _ => Real.exp_pos _)
        ⟨i, Finset.mem_range.mpr hi⟩
    have hcol : 0 < tril_sum f d n l1 l2 i := by
      unfold tril_sum sim_matrix_exp
      exact Finset.sum_pos (fun j _ => Real.exp_pos _)
        ⟨i, Finset.mem_range.mpr hi⟩
    have hexp : 0 < sim_matrix_exp f d l1 l2 i i := by
      unfold sim_matrix_exp
      exact Real.exp_pos _
    exact ⟨div_pos hexp hrow, div_pos hexp hcol⟩

/-- Witness for the amended C3 at the concrete distinct separator-free
batch `["a", "b"]` with two views, unit embeddings of dimension 1. -/
theorem C3_degenerate_batch_witness :
    triu_pairs ["a", "b"] = [] ∧ tril_pairs ["a", "b"] = []
    ∧ (contrastive_loss_state (fun _ _ _ => (1 : ℝ)) 1 2 ["a", "b"] 2).loss_terms
        = some 2
    ∧ (∀ lv : Nat × Nat,
        pair_contribution (fun _ _ _ => (1 : ℝ)) 1 2 ["a", "b"] lv
          = loss_diag1 (fun _ _ _ => (1 : ℝ)) 1 2 lv.1 lv.2
            + loss_diag2 (fun _ _ _ => (1 : ℝ)) 1 2 lv.1 lv.2)
    ∧ (∃ v, contrastive_loss_value 0 (fun _ _ _ => (1 : ℝ)) 1 2 2 ["a", "b"]
        = some v)
    ∧ (∀ l i, i < 2 → l < 2 →
        0 < norm_vector (fun _ _ _ => (1 : ℝ)) 1 l i)
    ∧ (∀ l1 l2 i, i < 2 →
        0 < sim_matrix_exp (fun _ _ _ => (1 : ℝ)) 1 l1 l2 i i /
            triu_sum (fun _ _ _ => (1 : ℝ)) 1 2 l1 l2 i
        ∧ 0 < sim_matrix_exp (fun _ _ _ => (1 : ℝ)) 1 l1 l2 i i /
            tril_sum (fun _ _ _ => (1 : ℝ)) 1 2 l1 l2 i) :=
  C3_degenerate_batch 0 (fun _ _ _ => (1 : ℝ)) 1 2 2 ["a", "b"] (by decide)
    (by decide) (by decide) (fun _ _ _ _ => ⟨0, by norm_num⟩)

/-- C4: the pre-exponentiation similarity score is the dot product divided
by the product of the two row norms and the constant `0.1`, and the result
of `contrastive_loss` is independent of the configured temperature, which
the local binding shadows. -/
theorem C4_temperature_constant (t1 t2 : ℝ) (f : Nat → Nat → Nat → ℝ)
    (d n nviews : Nat) (pids : List String) (l1 l2 i j : Nat) :
    argument f d l1 l2 i j
      = sim_matrix f d l1 l2 i j /
          (norm_vector f d l1 i * norm_vector f d l2 j * (0.1 : ℝ))
    ∧ contrastive_loss t1 f d n nviews pids
      = contrastive_loss t2 f d n nviews pids :=
  ⟨rfl, rfl⟩

/-- C5: for the identity vector `["p1", "p1", "p2", "p3"]` the upper index
set is exactly `[(0, 1)]` and the lower index set exactly `[(1, 0)]`; no
cell involving `p2` or `p3` is selected. -/
theorem C5_scenario_a :
    triu_pairs ["p1", "p1", "p2", "p3"] = [(0, 1)]
    ∧ tril_pairs ["p1", "p1", "p2", "p3"] = [(1, 0)] := by
  decide

/-- C6: for every identity vector, upper coordinates satisfy `i < j`,
lower coordinates satisfy `j < i`, the two index sets are disjoint, and
neither contains a diagonal coordinate. -/
theorem C6_triangular_invariants (pids : List String) :
    (∀ i j : Nat, (i, j) ∈ triu_pairs pids → i < j)
    ∧ (∀ i j : Nat, (i, j) ∈ tril_pairs pids → j < i)
    ∧ (∀ p : Nat × Nat, p ∈ triu_pairs pids → p ∉ tril_pairs pids)
    ∧ (∀ i : Nat, (i, i) ∉ triu_pairs pids ∧ (i, i) ∉ tril_pairs pids) := by
  refine ⟨fun i j hp => (mem_triu_pairs.1 hp).2.2.1,
    fun i j hp => (mem_tril_pairs.1 hp).2.2.1, ?_, ?_⟩
  · rintro ⟨i, j⟩ h1 h2
    have hu := (mem_triu_pairs.1 h1).2.2.1
    have hl := (mem_tril_pairs.1 h2).2.2.1
    omega
  · intro i
    constructor
    · intro hp
      have := (mem_triu_pairs.1 hp).2.2.1
      omega
    · intro hp
      have := (mem_tril_pairs.1 hp).2.2.1
      omega

/-- Witness for C6 at the identity vector `["a", "a"]` and its selected
upper coordinate `(0, 1)`. -/
theorem C6_triangular_invariants_witness :
    (0 : Nat) < 1 ∧ (0, 1) ∉ tril_pairs ["a", "a"] :=
  ⟨(C6_triangular_invariants ["a", "a"]).1 0 1 (by decide),
    (C6_triangular_invariants ["a", "a"]).2.2.1 (0, 1) (by decide)⟩

/-- C7: the pairing index computation is deterministic: on identity
vectors with identical content and order it yields identical upper and
lower index lists, with no dependence on any other state. -/
theorem C7_determinism (pids1 pids2 : List String) (h : pids1 = pids2) :
    triu_pairs pids1 = triu_pairs pids2
    ∧ tril_pairs pids1 = tril_pairs pids2 := by
  rw [h]
  exact ⟨rfl, rfl⟩

/-- Witness for C7 at two identical invocations on `["p1", "p1"]`. -/
theorem C7_determinism_witness :
    triu_pairs ["p1", "p1"] = triu_pairs ["p1", "p1"]
    ∧ tril_pairs ["p1", "p1"] = tril_pairs ["p1", "p1"] :=
  C7_determinism ["p1", "p1"] ["p1", "p1"] rfl

/-- C8: in multi-view mode, whenever the sequence survives the six
convolution blocks, the forward pass returns shape
`(batch, nviews, 128)`, or `(batch, 1, 128)` when `avg_embeddings` is set,
for every batch size and sequence length. -/
theorem C8_forward_shape (avg : Bool) (batch nviews seq L : Nat)
    (h : conv_pipeline_len seq = some L) :
    forward_shape false avg batch nviews seq
      = some [batch, if avg then 1 else nviews, 128] := by
  unfold forward_shape
  by_cases hn : nviews = 0
  · subst hn
    simp
  · simp [hn, h]

/-- Witness for C8: a length-1000 sequence survives the pipeline (final
length 33) and an 8-view batch of 4 maps to shape `(4, 8, 128)`. -/
theorem C8_forward_shape_witness :
    conv_pipeline_len 1000 = some 33
    ∧ forward_shape false false 4 8 1000 = some [4, 8, 128] :=
  ⟨by decide, C8_forward_shape false 4 8 1000 33 (by decide)⟩

/-- Iterating the batch loop leaves the scheduler state unchanged: the
loop body contains no scheduler step. -/
theorem batch_iteration_iterate (nb s : Nat) : batch_iteration^[nb] s = s := by
  induction nb with
  | zero => rfl
  | succ k ih =>
    rw [Function.iterate_succ_apply', ih]
    rfl

/-- One epoch advances the scheduler exactly when the epoch counter has
reached the warmup count, independently of the batch count. -/
theorem epoch_body_eq (w e nb s : Nat) :
    epoch_body w e nb s = if w ≤ e then s + 1 else s := by
  unfold epoch_body
  rw [batch_iteration_iterate]

/-- Folding the epoch loop counts one scheduler step per epoch at or past
warmup. -/
theorem foldl_epoch (w : Nat) (batches : Nat → Nat) :
    ∀ (l : List Nat) (s : Nat),
      l.foldl (fun s e => epoch_body w e (batches e) s) s
        = s + (l.filter (fun e => decide (w ≤ e))).length := by
  intro l
  induction l with
  | nil => intro s; simp
  | cons a tl ih =>
    intro s
    rw [List.foldl_cons, ih, epoch_body_eq, List.filter_cons]
    by_cases h : w ≤ a
    · rw [if_pos h, if_pos (by simpa using h)]
      simp only [List.length_cons]
      omega
    · rw [if_neg h, if_neg (by simpa using h)]

/-- C9: over the whole training loop the scheduler advances exactly once
per epoch whose counter has reached the warmup count, never for an epoch
below it, and never per iteration within an epoch (the step count is
independent of how many batches each epoch processes). -/
theorem C9_scheduler_gating (curr_epochs epochs warmup : Nat)
    (batches : Nat → Nat) (s0 : Nat) :
    train_sched_steps curr_epochs epochs warmup batches s0
      = s0 + ((train_epochs curr_epochs epochs).filter
          (fun e => decide (warmup ≤ e))).length
    ∧ (∀ e nb s, warmup ≤ e → epoch_body warmup e nb s = s + 1)
    ∧ (∀ e nb s, e < warmup → epoch_body warmup e nb s = s)
    ∧ (∀ batches2 : Nat → Nat,
        train_sched_steps curr_epochs epochs warmup batches2 s0
          = train_sched_steps curr_epochs epochs warmup batches s0) := by
  refine ⟨?_, ?_, ?_, ?_⟩
  · unfold train_sched_steps
    exact foldl_epoch warmup batches (train_epochs curr_epochs epochs) s0
  · intro e nb s he
    rw [epoch_body_eq, if_pos he]
  · intro e nb s he
    rw [epoch_body_eq, if_neg (by omega)]
  · intro batches2
    unfold train_sched_steps
    rw [foldl_epoch warmup batches2, foldl_epoch warmup batches]

/-- Witness for C9: an epoch at counter 7 with warmup 5 steps the
scheduler once; an epoch at counter 2 does not. -/
theorem C9_scheduler_gating_witness :
    epoch_body 5 7 3 0 = 0 + 1 ∧ epoch_body 5 2 3 4 = 4 :=
  ⟨(C9_scheduler_gating 0 1 5 (fun _ => 0) 0).2.1 7 3 0 (by decide),
    (C9_scheduler_gating 0 1 5 (fun _ => 0) 0).2.2.1 2 3 4 (by decide)⟩

/-- C10: with at least two views, the second return value of
`contrastive_loss` is the exponentiated similarity matrix of the last
view-pair combination iterated — the pair of the two highest view indices
— and the third return value is a one-dimensional vector of `n` ones
(`torch.diag` of an all-ones matrix), not an `n × n` identity matrix. -/
theorem C10_return_values (t : ℝ) (f : Nat → Nat → Nat → ℝ)
    (d n nviews : Nat) (pids : List String) (h : 2 ≤ nviews) :
    (view_combinations nviews).getLast? = some (nviews - 2, nviews - 1)
    ∧ (contrastive_loss t f d n nviews pids).map (fun r => r.2.1)
        = some (fun i j => sim_matrix_exp f d (nviews - 2) (nviews - 1) i j)
    ∧ (contrastive_loss t f d n nviews pids).map (fun r => r.2.2)
        = some (List.replicate n 1) := by
  obtain ⟨hmain, -, -, hlast⟩ := contrastive_loss_spec t f d n nviews pids h
  exact ⟨hlast, by rw [hmain]; rfl, by rw [hmain]; rfl⟩

/-- Witness for C10 at two views, batch 2, unit embeddings. -/
theorem C10_return_values_witness :
    (view_combinations 2).getLast? = some (0, 1)
    ∧ (contrastive_loss 0 (fun _ _ _ => (1 : ℝ)) 1 2 2 ["a", "b"]).map
          (fun r => r.2.1)
        = some (fun i j => sim_matrix_exp (fun _ _ _ => (1 : ℝ)) 1 0 1 i j)
    ∧ (contrastive_loss 0 (fun _ _ _ => (1 : ℝ)) 1 2 2 ["a", "b"]).map
          (fun r => r.2.2)
        = some (List.replicate 2 1) :=
  C10_return_values 0 (fun _ _ _ => (1 : ℝ)) 1 2 2 ["a", "b"] (by decide)

end ECG
